import Mathlib

/-!
Verification of the PageRank program (`pagerank.py`) against its design
specification. The corpus graph, `transition_model`, `sample_pagerank` and
`iterate_pagerank` are embedded shallowly: Python floats become exact
rationals, the `random` module becomes an index oracle, Python exceptions
become `Except` errors, and the unbounded `while` loop gets explicit fuel.
-/

/-- A corpus: the Python dict mapping each page to its set of outbound links.
`nodes` is the key list (Python dicts iterate in insertion order) and
`links p` is the outbound-link set of page `p`, kept as a list. -/
structure Corpus where
  nodes : List String
  links : String → List String

/-- The §3 graph invariants: the node keys are distinct, every neighbour list
is duplicate-free, every listed neighbour is itself a key (no dangling
links), and no page links to itself. -/
abbrev Corpus.Valid (c : Corpus) : Prop :=
  c.nodes.Nodup ∧
    ∀ p ∈ c.nodes, (c.links p).Nodup ∧ (∀ q ∈ c.links p, q ∈ c.nodes) ∧ p ∉ c.links p

/-- Embedding of `transition_model(corpus, page, damping_factor)`: the
returned probability-distribution dict, as a list of (page, value) pairs in
key order. `lnk_prob` is `damping_factor / len(corpus[page])` when the page
has outbound links and `0` otherwise, exactly as in the source; each page
`p` receives `(lnk_prob if p in corpus[page] else 0) + (1 - damping_factor)
/ number_pgs`. -/
def transition_model (corpus : Corpus) (page : String) (damping_factor : ℚ) :
    List (String × ℚ) :=
  let number_pgs : ℚ := (corpus.nodes.length : ℚ)
  let lnk_prob : ℚ :=
    if (corpus.links page).length > 0 then damping_factor / ((corpus.links page).length : ℚ)
    else 0
  corpus.nodes.map fun p =>
    (p, (if p ∈ corpus.links page then lnk_prob else 0) + (1 - damping_factor) / number_pgs)

/-- Python runtime errors the estimators can raise, plus the specification's
`InvalidInput` error class (§7) for comparison. The source program performs
no input validation, so `invalidInput` is never produced by the embedding. -/
inductive PyErr where
  | indexError
  | valueError
  | zeroDivisionError
  | invalidInput
deriving DecidableEq, Repr

/-- Embedding of `random.choice(seq)`: raises `IndexError` on an empty
sequence; otherwise the random draw is modelled by an oracle-supplied index,
taken modulo the length so that any valid element can be the outcome. -/
def pyChoice (seq : List String) (i : Nat) : Except PyErr String :=
  if seq.isEmpty then .error .indexError else .ok (seq.getD (i % seq.length) "")

/-- Embedding of `random.choices(population, weights=w)[0]`: raises
`ValueError` when the weights do not sum to a positive total; otherwise the
outcome is one of the positive-weight elements, selected by an
oracle-supplied index. -/
def pyChoices (population : List String) (weights : List ℚ) (i : Nat) :
    Except PyErr String :=
  if weights.sum ≤ 0 then .error .valueError
  else
    let selectable := ((population.zip weights).filter fun pw => decide (0 < pw.2)).map Prod.fst
    .ok (selectable.getD (i % selectable.length) "")

/-- The sampling loop of `sample_pagerank`: `k` iterations remain, `t`
indexes the oracle, `cur` is `current_page` and `counts` holds the visit
counters. Each pass increments the current page's counter, builds the
transition distribution, and draws the next page from its keys weighted by
its values. -/
def sampleIter (corpus : Corpus) (damping_factor : ℚ) (oracle : Nat → Nat) :
    Nat → Nat → String → (String → Nat) → Except PyErr (String → Nat)
  | 0, _, _, counts => .ok counts
  | k + 1, t, cur, counts =>
    let counts' : String → Nat := fun p => if p = cur then counts p + 1 else counts p
    let probabilities := transition_model corpus cur damping_factor
    match pyChoices (probabilities.map Prod.fst) (probabilities.map Prod.snd) (oracle t) with
    | .error e => .error e
    | .ok nxt => sampleIter corpus damping_factor oracle k (t + 1) nxt counts'

/-- Embedding of `sample_pagerank(corpus, damping_factor, n)`. The start page
is drawn by `random.choice` from the key list, `range(n)` runs `n.toNat`
times, and the final normalisation divides each counter by `total_samples`,
raising `ZeroDivisionError` when the counters sum to zero exactly as
Python's division does. -/
def sample_pagerank (corpus : Corpus) (damping_factor : ℚ) (n : Int)
    (oracle : Nat → Nat) : Except PyErr (List (String × ℚ)) :=
  match pyChoice corpus.nodes (oracle 0) with
  | .error e => .error e
  | .ok current_page =>
    match sampleIter corpus damping_factor oracle n.toNat 1 current_page (fun _ => 0) with
    | .error e => .error e
    | .ok counts =>
      let total_samples : Nat := (corpus.nodes.map counts).sum
      if total_samples = 0 then .error .zeroDivisionError
      else .ok (corpus.nodes.map fun p => (p, (counts p : ℚ) / (total_samples : ℚ)))

/-- Initial state of `iterate_pagerank`: every page starts at
`1/len(corpus)`. -/
def initRank (corpus : Corpus) : String → ℚ :=
  fun _ => 1 / (corpus.nodes.length : ℚ)

/-- One pass of the `while` body of `iterate_pagerank`: every page starts at
`(1 - damping_factor)/N` and gains
`damping_factor * (page_rank[lnkng_page] / len(Lnks))` for every page
`lnkng_page` whose neighbour list `Lnks` literally contains it. -/
def iterStep (corpus : Corpus) (damping_factor : ℚ) (page_rank : String → ℚ) :
    String → ℚ :=
  fun page =>
    (1 - damping_factor) / (corpus.nodes.length : ℚ) +
      (corpus.nodes.map fun lnkng_page =>
        if page ∈ corpus.links lnkng_page then
          damping_factor * (page_rank lnkng_page / ((corpus.links lnkng_page).length : ℚ))
        else 0).sum

/-- The convergence test of `iterate_pagerank`: every page moved by less than
`0.001`. -/
def converged (corpus : Corpus) (new_rank page_rank : String → ℚ) : Bool :=
  corpus.nodes.all fun page => decide (|new_rank page - page_rank page| < 1 / 1000)

/-- The `while True` loop of `iterate_pagerank`, with explicit fuel. When the
convergence test passes, the loop breaks before the `page_rank = new_Pge_Rnk`
assignment and so returns the previous iterate `page_rank`; otherwise
`page_rank` is replaced by the freshly computed mapping. `none` means the
fuel ran out before convergence. -/
def iterLoop (corpus : Corpus) (damping_factor : ℚ) :
    Nat → (String → ℚ) → Option (String → ℚ)
  | 0, _ => none
  | fuel + 1, page_rank =>
    if converged corpus (iterStep corpus damping_factor page_rank) page_rank then
      some page_rank
    else iterLoop corpus damping_factor fuel (iterStep corpus damping_factor page_rank)

/-- Embedding of `iterate_pagerank(corpus, damping_factor)`: run the loop
from the uniform initial mapping and return the final dict as a key-ordered
list of pairs. -/
def iterate_pagerank (corpus : Corpus) (damping_factor : ℚ) (fuel : Nat) :
    Option (List (String × ℚ)) :=
  (iterLoop corpus damping_factor fuel (initRank corpus)).map
    fun page_rank => corpus.nodes.map fun page => (page, page_rank page)

/-- The single-node graph `{A: {}}` from the spec's §8 scenario. -/
def singleC : Corpus := ⟨["A"], fun _ => []⟩

/-- The two-node graph `{A: {B}, B: {}}`, whose page `B` is a dead end. -/
def deadEndC : Corpus := ⟨["A", "B"], fun p => if p = "A" then ["B"] else []⟩

/-- The 2-cycle `{A: {B}, B: {A}}`, a graph with no dead ends. -/
def cycleC : Corpus :=
  ⟨["A", "B"], fun p => if p = "A" then ["B"] else if p = "B" then ["A"] else []⟩

/-- Unfolding equation for `iterLoop` at positive fuel. -/
theorem iterLoop_succ (c : Corpus) (d : ℚ) (fuel : Nat) (r : String → ℚ) :
    iterLoop c d (fuel + 1) r =
      if converged c (iterStep c d r) r then some r
      else iterLoop c d fuel (iterStep c d r) := rfl

/-- When the convergence test passes, the loop returns the current iterate. -/
theorem iterLoop_succ_pos (c : Corpus) (d : ℚ) (fuel : Nat) (r : String → ℚ)
    (h : converged c (iterStep c d r) r = true) :
    iterLoop c d (fuel + 1) r = some r := by
  rw [iterLoop_succ, if_pos h]

/-- When the convergence test fails, the loop recurses on the updated
mapping. -/
theorem iterLoop_succ_neg (c : Corpus) (d : ℚ) (fuel : Nat) (r : String → ℚ)
    (h : converged c (iterStep c d r) r = false) :
    iterLoop c d (fuel + 1) r = iterLoop c d fuel (iterStep c d r) := by
  rw [iterLoop_succ, if_neg]
  simp [h]

/-- On the single-node graph with damping `0.85`, the first update sends the
initial rank `1` to `(1 - 0.85)/1 = 0.15` for the lone page. -/
theorem iterStep_single_init :
    iterStep singleC (17 / 20) (initRank singleC) = fun _ => 3 / 20 := by
  funext page
  simp [iterStep, initRank, singleC]
  norm_num

/-- The update on the single-node graph fixes the mapping `0.15`. -/
theorem iterStep_single_again :
    iterStep singleC (17 / 20) (fun _ => 3 / 20) = fun _ => (3 : ℚ) / 20 := by
  funext page
  simp [iterStep, singleC]
  norm_num

/-- The convergence test passes at the mapping `0.15` on the single-node
graph. -/
theorem converged_single_again :
    converged singleC (iterStep singleC (17 / 20) (fun _ => 3 / 20)) (fun _ => 3 / 20) = true := by
  rw [iterStep_single_again]
  simp [converged, singleC]

/-- Concrete run: `iterate_pagerank` on `{A: {}}` with damping `0.85`
terminates (fuel 2 suffices) and returns `{A: 0.15}`. -/
theorem iterate_single_eval :
    iterate_pagerank singleC (17 / 20) 2 = some [("A", 3 / 20)] := by
  rw [iterate_pagerank, show (2 : Nat) = 1 + 1 from rfl]
  rw [iterLoop_succ_neg _ _ _ _ (by
    rw [iterStep_single_init]
    simp [converged, initRank, singleC]
    rcases abs_cases ((3 : ℚ) / 20 - 1) with ⟨h1, h2⟩ | ⟨h1, h2⟩ <;> linarith)]
  rw [iterStep_single_init]
  rw [show (1 : Nat) = 0 + 1 from rfl, iterLoop_succ_pos _ _ _ _ converged_single_again]
  simp [singleC]

/-- Concrete run: the transition model on `{A: {}}` at page `A` with damping
`0.85` returns `{A: 0.15}`. -/
theorem transition_single_eval :
    transition_model singleC "A" (17 / 20) = [("A", 3 / 20)] := by
  simp [transition_model, singleC]
  norm_num

/-- Unfolding equation for the sampling loop at a positive iteration count. -/
theorem sampleIter_succ (c : Corpus) (d : ℚ) (oracle : Nat → Nat) (k t : Nat)
    (cur : String) (counts : String → Nat) :
    sampleIter c d oracle (k + 1) t cur counts =
      match pyChoices ((transition_model c cur d).map Prod.fst)
          ((transition_model c cur d).map Prod.snd) (oracle t) with
      | .error e => .error e
      | .ok nxt =>
        sampleIter c d oracle k (t + 1) nxt
          (fun p => if p = cur then counts p + 1 else counts p) := rfl

/-- Concrete run: `sample_pagerank` on `{A: {}}` with one sample returns
`{A: 1.0}` (the weighted draw always yields the lone page). -/
theorem sample_single_eval :
    sample_pagerank singleC (17 / 20) 1 (fun _ => 0) = .ok [("A", 1)] := by
  rw [sample_pagerank]
  have hc : pyChoice singleC.nodes 0 = .ok "A" := by simp [pyChoice, singleC]
  rw [show ((1 : Int)).toNat = 0 + 1 from rfl]
  simp only [hc]
  rw [sampleIter_succ]
  have hw : pyChoices ((transition_model singleC "A" (17 / 20)).map Prod.fst)
      ((transition_model singleC "A" (17 / 20)).map Prod.snd) 0 = .ok "A" := by
    rw [transition_single_eval]
    simp [pyChoices]
  simp only [hw]
  simp [sampleIter, singleC]

/-- Concrete run: in the first iteration on `{A: {B}, B: {}}` with damping
`0.85`, page `A` receives only the base term `(1 - 0.85)/2 = 0.075`; the dead
end `B` contributes nothing to it. -/
theorem iterStep_deadEnd_A :
    iterStep deadEndC (17 / 20) (initRank deadEndC) "A" = 3 / 40 := by
  simp [iterStep, initRank, deadEndC]
  norm_num

/-- The values returned by the transition model on `{A: {}}` sum to `0.15`,
not `1`. -/
theorem transition_sum_single :
    ((transition_model singleC "A" (17 / 20)).map Prod.snd).sum = 3 / 20 := by
  rw [transition_single_eval]
  simp

/-- Looking up a key of an association list built by pairing each list
element with a function value returns that function value. -/
theorem lookup_map_pair {β : Type} (f : String → β) :
    ∀ (l : List String) (q : String), q ∈ l →
      (l.map fun p => (p, f p)).lookup q = some (f q) := by
  intro l
  induction l with
  | nil => intro q hq; cases hq
  | cons p l ih =>
    intro q hq
    simp only [List.map_cons, List.lookup_cons]
    rcases List.mem_cons.mp hq with rfl | hq
    · simp
    · by_cases h : q = p
      · subst h; simp
      · have hb : (q == p) = false := by simpa using h
        rw [hb]
        exact ih q hq

/-- The Boolean convergence test, as a proposition. -/
theorem converged_iff (corpus : Corpus) (new_rank page_rank : String → ℚ) :
    converged corpus new_rank page_rank = true ↔
      ∀ page ∈ corpus.nodes, |new_rank page - page_rank page| < 1 / 1000 := by
  simp [converged]

/-- Whatever mapping a successful loop run returns, the convergence test
passes at it. -/
theorem iterLoop_converged (corpus : Corpus) (damping_factor : ℚ) :
    ∀ (fuel : Nat) (r₀ r : String → ℚ),
      iterLoop corpus damping_factor fuel r₀ = some r →
      converged corpus (iterStep corpus damping_factor r) r = true := by
  intro fuel
  induction fuel with
  | zero => intro r₀ r h; simp [iterLoop] at h
  | succ fuel ih =>
    intro r₀ r h
    rw [iterLoop_succ] at h
    by_cases hc : converged corpus (iterStep corpus damping_factor r₀) r₀ = true
    · rw [if_pos hc] at h
      injection h with h
      subst h
      exact hc
    · rw [if_neg hc] at h
      exact ih _ r h

/-- The ℓ1 distance between two rank mappings over the corpus's node set. -/
def l1dist (corpus : Corpus) (r s : String → ℚ) : ℚ :=
  ∑ p ∈ corpus.nodes.toFinset, |r p - s p|

/-- The list sum inside `iterStep`, rewritten as a `Finset` sum over the
(duplicate-free) node set. -/
theorem iterStep_eq_finsum (corpus : Corpus) (d : ℚ) (r : String → ℚ) (page : String)
    (hnd : corpus.nodes.Nodup) :
    iterStep corpus d r page =
      (1 - d) / (corpus.nodes.length : ℚ) +
        ∑ i ∈ corpus.nodes.toFinset,
          if page ∈ corpus.links i then d * (r i / ((corpus.links i).length : ℚ)) else 0 := by
  rw [iterStep, List.sum_toFinset _ hnd]

/-- Pointwise bound: the change of one page's rank under the update is at
most the weighted sum of the changes of the pages linking to it. -/
theorem abs_iterStep_sub_le (corpus : Corpus) (d : ℚ) (r s : String → ℚ) (page : String)
    (hnd : corpus.nodes.Nodup) (hd : 0 ≤ d) :
    |iterStep corpus d r page - iterStep corpus d s page| ≤
      ∑ i ∈ corpus.nodes.toFinset,
        if page ∈ corpus.links i then d * (|r i - s i| / ((corpus.links i).length : ℚ)) else 0 := by
  rw [iterStep_eq_finsum _ _ _ _ hnd, iterStep_eq_finsum _ _ _ _ hnd,
    add_sub_add_left_eq_sub, ← Finset.sum_sub_distrib]
  refine (Finset.abs_sum_le_sum_abs _ _).trans (Finset.sum_le_sum ?_)
  intro i _
  by_cases hm : page ∈ corpus.links i
  · simp only [hm, if_true]
    apply le_of_eq
    rw [← mul_sub, ← sub_div, abs_mul, abs_div, abs_of_nonneg hd,
      show |((corpus.links i).length : ℚ)| = ((corpus.links i).length : ℚ) from
        abs_of_nonneg (Nat.cast_nonneg _)]
  · simp [hm]

/-- The PageRank update is a contraction with factor `d` in ℓ1 distance: a
page with links spreads each unit of rank change over exactly `|L|` nodes of
the graph, and a dead end spreads none. -/
theorem l1_contraction (corpus : Corpus) (d : ℚ) (r s : String → ℚ)
    (hv : corpus.Valid) (hd : 0 ≤ d) :
    l1dist corpus (iterStep corpus d r) (iterStep corpus d s) ≤ d * l1dist corpus r s := by
  obtain ⟨hnd, hprops⟩ := hv
  rw [l1dist, l1dist, Finset.mul_sum]
  have step1 : ∑ p ∈ corpus.nodes.toFinset, |iterStep corpus d r p - iterStep corpus d s p|
      ≤ ∑ p ∈ corpus.nodes.toFinset, ∑ i ∈ corpus.nodes.toFinset,
          (if p ∈ corpus.links i then d * (|r i - s i| / ((corpus.links i).length : ℚ)) else 0) :=
    Finset.sum_le_sum fun p _ => abs_iterStep_sub_le corpus d r s p hnd hd
  refine step1.trans ?_
  rw [Finset.sum_comm]
  refine Finset.sum_le_sum ?_
  intro i hi
  have hiN : i ∈ corpus.nodes := List.mem_toFinset.mp hi
  obtain ⟨hLnd, hLsub, _⟩ := hprops i hiN
  rcases eq_or_ne (corpus.links i) [] with hL | hL
  · simp [hL]
    exact mul_nonneg hd (abs_nonneg _)
  · have hsub : (corpus.links i).toFinset ⊆ corpus.nodes.toFinset := fun q hq =>
      List.mem_toFinset.mpr (hLsub q (List.mem_toFinset.mp hq))
    have hlen : 0 < (corpus.links i).length := List.length_pos.mpr hL
    have hne : ((corpus.links i).length : ℚ) ≠ 0 := Nat.cast_ne_zero.mpr hlen.ne'
    apply le_of_eq
    calc ∑ p ∈ corpus.nodes.toFinset,
          (if p ∈ corpus.links i then d * (|r i - s i| / ((corpus.links i).length : ℚ)) else 0)
        = ∑ p ∈ corpus.nodes.toFinset,
          (if p ∈ (corpus.links i).toFinset then
            d * (|r i - s i| / ((corpus.links i).length : ℚ)) else 0) := by
          simp only [List.mem_toFinset]
      _ = ∑ p ∈ corpus.nodes.toFinset ∩ (corpus.links i).toFinset,
            d * (|r i - s i| / ((corpus.links i).length : ℚ)) :=
          Finset.sum_ite_mem _ _ _
      _ = ∑ p ∈ (corpus.links i).toFinset,
            d * (|r i - s i| / ((corpus.links i).length : ℚ)) := by
          rw [Finset.inter_eq_right.mpr hsub]
      _ = ((corpus.links i).length : ℚ) *
            (d * (|r i - s i| / ((corpus.links i).length : ℚ))) := by
          rw [Finset.sum_const, List.toFinset_card_of_nodup hLnd, nsmul_eq_mul]
      _ = d * |r i - s i| := by
          rw [mul_comm, mul_assoc, div_mul_cancel₀ _ hne]

/-- Geometric decay of successive iterate distances under the contraction. -/
theorem l1_iterates (corpus : Corpus) (d : ℚ) (hv : corpus.Valid) (hd : 0 ≤ d) :
    ∀ (k : Nat) (r₀ : String → ℚ),
      l1dist corpus ((iterStep corpus d)^[k + 1] r₀) ((iterStep corpus d)^[k] r₀) ≤
        d ^ k * l1dist corpus (iterStep corpus d r₀) r₀ := by
  intro k
  induction k with
  | zero => intro r₀; simp
  | succ k ih =>
    intro r₀
    have e1 : (iterStep corpus d)^[k + 1 + 1] r₀ =
        (iterStep corpus d)^[k + 1] (iterStep corpus d r₀) :=
      Function.iterate_succ_apply _ _ _
    have e2 : (iterStep corpus d)^[k + 1] r₀ =
        (iterStep corpus d)^[k] (iterStep corpus d r₀) :=
      Function.iterate_succ_apply _ _ _
    rw [e1, e2]
    calc l1dist corpus ((iterStep corpus d)^[k + 1] (iterStep corpus d r₀))
          ((iterStep corpus d)^[k] (iterStep corpus d r₀))
        ≤ d ^ k * l1dist corpus (iterStep corpus d (iterStep corpus d r₀))
            (iterStep corpus d r₀) :=
          ih (iterStep corpus d r₀)
      _ ≤ d ^ k * (d * l1dist corpus (iterStep corpus d r₀) r₀) :=
          mul_le_mul_of_nonneg_left (l1_contraction corpus d _ _ hv hd) (pow_nonneg hd k)
      _ = d ^ (k + 1) * l1dist corpus (iterStep corpus d r₀) r₀ := by ring

/-- If the convergence test passes after `k` updates, any fuel above `k`
makes the loop return a result. -/
theorem iterLoop_isSome_of_conv (corpus : Corpus) (d : ℚ) :
    ∀ (k : Nat) (r : String → ℚ),
      converged corpus (iterStep corpus d ((iterStep corpus d)^[k] r))
        ((iterStep corpus d)^[k] r) = true →
      ∀ fuel : Nat, k < fuel → (iterLoop corpus d fuel r).isSome = true := by
  intro k
  induction k with
  | zero =>
    intro r h fuel hf
    cases fuel with
    | zero => exact absurd hf (Nat.not_lt_zero 0)
    | succ fuel =>
      rw [Function.iterate_zero_apply] at h
      rw [iterLoop_succ_pos _ _ _ _ h]
      rfl
  | succ k ih =>
    intro r h fuel hf
    cases fuel with
    | zero => exact absurd hf (Nat.not_lt_zero _)
    | succ fuel =>
      by_cases hc : converged corpus (iterStep corpus d r) r = true
      · rw [iterLoop_succ_pos _ _ _ _ hc]
        rfl
      · rw [iterLoop_succ_neg _ _ _ _ (Bool.not_eq_true _ ▸ hc)]
        apply ih (iterStep corpus d r) _ fuel (Nat.lt_of_succ_lt_succ hf)
        rw [← Function.iterate_succ_apply]
        exact h

/-- A single page's rank change is bounded by the ℓ1 distance. -/
theorem abs_le_l1dist (corpus : Corpus) (r s : String → ℚ) (page : String)
    (hp : page ∈ corpus.nodes) :
    |r page - s page| ≤ l1dist corpus r s := by
  rw [l1dist]
  exact Finset.single_le_sum (f := fun q => |r q - s q|) (fun i _ => abs_nonneg _)
    (List.mem_toFinset.mpr hp)

/-- Claim C1 (code evaluation at the failing input): the spec says that on a
page with no outbound links `transition` returns the uniform distribution
`1/N` over all nodes, but on the graph `{A: {}}` with damping factor `0.85`
the code assigns the lone page `(1 - 0.85)/1 = 0.15`, which is not
`1/N = 1`. -/
theorem transition_dead_end_not_uniform :
    transition_model singleC "A" (17 / 20) = [("A", 3 / 20)] ∧
      ((3 : ℚ) / 20) ≠ 1 / (singleC.nodes.length : ℚ) := by
  refine ⟨transition_single_eval, ?_⟩
  simp [singleC]
  norm_num

/-- Claim C2 (code evaluation at the failing input): the spec says a node
with zero outbound links contributes `damping_factor * rank[i]/N` to every
node's new rank, but on `{A: {B}, B: {}}` with damping `0.85` the first
update gives page `A` only the base `0.075`; the value the claim demands,
`0.075 + 0.85 * (rank[B]/2)`, is different. -/
theorem dead_end_contributes_nothing :
    iterStep deadEndC (17 / 20) (initRank deadEndC) "A" = 3 / 40 ∧
      (3 : ℚ) / 40 ≠ 3 / 40 + (17 / 20) * (initRank deadEndC "B" / (deadEndC.nodes.length : ℚ)) := by
  refine ⟨iterStep_deadEnd_A, ?_⟩
  simp [initRank, deadEndC]

/-- Claim C3 (code evaluation at the failing input): on the single-node
graph `{A: {}}` with damping `0.85` the sampling estimator does return
`{A: 1.0}`, but the iterative estimator returns `{A: 0.15}`, not `{A: 1.0}`
as the spec's scenario demands. -/
theorem single_node_estimators_disagree :
    iterate_pagerank singleC (17 / 20) 2 = some [("A", 3 / 20)] ∧
      sample_pagerank singleC (17 / 20) 1 (fun _ => 0) = .ok [("A", 1)] ∧
      ((3 : ℚ) / 20) ≠ 1 := by
  exact ⟨iterate_single_eval, sample_single_eval, by norm_num⟩

/-- Claim C4 (code evaluation at the failing input): the spec says the
transition distribution always sums to `1.0` within `1e-9`; on `{A: {}}`
at page `A` with damping `0.85` the returned values sum to `0.15`, which is
off by far more than `1e-9`. -/
theorem transition_sum_not_one :
    ((transition_model singleC "A" (17 / 20)).map Prod.snd).sum = 3 / 20 ∧
      |((3 : ℚ) / 20) - 1| > 1 / 10 ^ 9 := by
  refine ⟨transition_sum_single, ?_⟩
  rcases abs_cases ((3 : ℚ) / 20 - 1) with ⟨h1, h2⟩ | ⟨h1, h2⟩ <;> linarith

/-- Claim C5 (code evaluation at the failing input): the spec says the
`iterate_rank` result sums to `1.0` within `1e-3` for any graph; on the
valid non-empty graph `{A: {}}` with damping `0.85` the returned values sum
to `0.15`, which is off by `0.85 > 1e-3`. -/
theorem iterate_sum_not_one :
    (iterate_pagerank singleC (17 / 20) 2).map (fun l => (l.map Prod.snd).sum) =
        some (3 / 20) ∧
      |((3 : ℚ) / 20) - 1| > 1 / 1000 := by
  constructor
  · rw [iterate_single_eval]
    simp
  · rcases abs_cases ((3 : ℚ) / 20 - 1) with ⟨h1, h2⟩ | ⟨h1, h2⟩ <;> linarith

/-- Claim C6: on a page whose outbound-link set `L` is non-empty,
`transition_model` assigns every node `q` of the graph the probability
`damping_factor/|L| + (1 - damping_factor)/N` when `q ∈ L`, and
`(1 - damping_factor)/N` otherwise, for any damping factor in `[0, 1]` and
any graph satisfying the §3 invariants. -/
theorem transition_linked_values (corpus : Corpus) (page : String) (damping_factor : ℚ)
    (hv : corpus.Valid) (hp : page ∈ corpus.nodes) (hL : corpus.links page ≠ [])
    (h0 : 0 ≤ damping_factor) (h1 : damping_factor ≤ 1) :
    ∀ q ∈ corpus.nodes,
      (transition_model corpus page damping_factor).lookup q =
        some (if q ∈ corpus.links page then
            damping_factor / ((corpus.links page).length : ℚ) +
              (1 - damping_factor) / (corpus.nodes.length : ℚ)
          else (1 - damping_factor) / (corpus.nodes.length : ℚ)) := by
  intro q hq
  have hlen : (corpus.links page).length > 0 := List.length_pos.mpr hL
  rw [transition_model]
  simp only [hlen, if_true]
  rw [lookup_map_pair _ corpus.nodes q hq]
  by_cases hm : q ∈ corpus.links page
  · simp [hm]
  · simp [hm]

/-- Witness for claim C6: on the 2-cycle `{A: {B}, B: {A}}` with damping
`1/2`, node `B` (a link target of `A`) receives `1/2 / 1 + (1/2)/2 = 3/4`. -/
theorem transition_linked_values_witness :
    Corpus.Valid cycleC ∧ "A" ∈ cycleC.nodes ∧ cycleC.links "A" ≠ [] ∧
      ((0 : ℚ) ≤ 1 / 2 ∧ (1 : ℚ) / 2 ≤ 1) ∧
      (transition_model cycleC "A" (1 / 2)).lookup "B" =
        some (if "B" ∈ cycleC.links "A" then
            (1 / 2) / ((cycleC.links "A").length : ℚ) +
              (1 - 1 / 2) / ((cycleC.nodes.length : ℚ))
          else (1 - 1 / 2) / ((cycleC.nodes.length : ℚ))) :=
  ⟨by decide, by decide, by decide, ⟨by norm_num, by norm_num⟩,
    transition_linked_values cycleC "A" (1 / 2) (by decide) (by decide) (by decide)
      (by norm_num) (by norm_num) "B" (by decide)⟩

/-- Counterexample for claim C7: on the empty graph, `sample_pagerank` fails
with an `IndexError` raised by `random.choice` on the empty key list, not
with the spec's `InvalidInput` error; no eager validation happens at the
entry of the estimator. -/
theorem sample_empty_counterexample :
    sample_pagerank ⟨[], fun _ => []⟩ (17 / 20) 10000 (fun _ => 0) =
        .error .indexError ∧ PyErr.indexError ≠ PyErr.invalidInput :=
  ⟨rfl, by decide⟩

/-- Claim C7 as amended: for the empty graph, `sample_pagerank` always fails
with the incidental `IndexError` raised when the random start page is chosen
from the empty key list; the error does surface to the caller before any
result is produced, but it is not an `InvalidInput` validation error. -/
theorem sample_empty_always_index_error (links : String → List String)
    (damping_factor : ℚ) (n : Int) (oracle : Nat → Nat) :
    sample_pagerank ⟨[], links⟩ damping_factor n oracle = .error .indexError := rfl

/-- Claim C8 (code evaluation at the failing inputs): the spec says a
non-positive `sample_count` must be either rejected as `InvalidInput` or
treated as a no-op returning all-zero ranks, and must not become an uncaught
arithmetic failure; the code instead raises `ZeroDivisionError` at the
normalisation step for every non-empty graph and every `n ≤ 0`. -/
theorem sample_nonpositive_division_by_zero (corpus : Corpus) (damping_factor : ℚ)
    (n : Int) (oracle : Nat → Nat) (hne : corpus.nodes ≠ []) (hn : n ≤ 0) :
    sample_pagerank corpus damping_factor n oracle = .error .zeroDivisionError := by
  obtain ⟨ns, lk⟩ := corpus
  cases ns with
  | nil => exact absurd rfl hne
  | cons a l =>
    rw [sample_pagerank]
    have hc : pyChoice { nodes := a :: l, links := lk : Corpus }.nodes (oracle 0) =
        .ok ((a :: l).getD (oracle 0 % (a :: l).length) "") := by
      simp [pyChoice]
    rw [hc, Int.toNat_of_nonpos hn]
    simp [sampleIter]

/-- Witness for claim C8: the single-node graph with `n = 0` indeed produces
the division-by-zero error. -/
theorem sample_nonpositive_division_by_zero_witness :
    singleC.nodes ≠ [] ∧ (0 : Int) ≤ 0 ∧
      sample_pagerank singleC (17 / 20) 0 (fun _ => 0) = .error .zeroDivisionError :=
  ⟨by decide, le_refl 0,
    sample_nonpositive_division_by_zero singleC (17 / 20) 0 (fun _ => 0) (by decide)
      (le_refl 0)⟩

/-- Claim C9: for every graph satisfying the §3 invariants with at least one
node and every damping factor with `0 ≤ d < 1`, the fixed-point iteration of
`iterate_pagerank` terminates: some finite fuel suffices for the convergence
test (every page moving by less than `0.001`) to pass, and a result is
returned. The proof uses that the update is an ℓ1 contraction with
factor `d`. -/
theorem iterate_terminates (corpus : Corpus) (damping_factor : ℚ)
    (hv : corpus.Valid) (hne : corpus.nodes ≠ []) (hd0 : 0 ≤ damping_factor)
    (hd1 : damping_factor < 1) :
    ∃ fuel l, iterate_pagerank corpus damping_factor fuel = some l := by
  have hD : 0 ≤ l1dist corpus (iterStep corpus damping_factor (initRank corpus))
      (initRank corpus) :=
    Finset.sum_nonneg fun i _ => abs_nonneg _
  obtain ⟨k, hk⟩ := exists_pow_lt_of_lt_one
    (x := (1 / 1000) /
      (l1dist corpus (iterStep corpus damping_factor (initRank corpus)) (initRank corpus) + 1))
    (div_pos (by norm_num) (by linarith)) hd1
  have hconv : converged corpus
      (iterStep corpus damping_factor ((iterStep corpus damping_factor)^[k] (initRank corpus)))
      ((iterStep corpus damping_factor)^[k] (initRank corpus)) = true := by
    rw [converged_iff]
    intro page hp
    have h1 : |iterStep corpus damping_factor
          ((iterStep corpus damping_factor)^[k] (initRank corpus)) page -
          (iterStep corpus damping_factor)^[k] (initRank corpus) page| ≤
        l1dist corpus ((iterStep corpus damping_factor)^[k + 1] (initRank corpus))
          ((iterStep corpus damping_factor)^[k] (initRank corpus)) := by
      rw [Function.iterate_succ_apply']
      exact abs_le_l1dist corpus _ _ page hp
    have h2 := l1_iterates corpus damping_factor hv hd0 k (initRank corpus)
    have h3 : damping_factor ^ k *
        l1dist corpus (iterStep corpus damping_factor (initRank corpus)) (initRank corpus) <
        1 / 1000 := by
      calc damping_factor ^ k *
            l1dist corpus (iterStep corpus damping_factor (initRank corpus)) (initRank corpus)
          ≤ damping_factor ^ k *
            (l1dist corpus (iterStep corpus damping_factor (initRank corpus))
              (initRank corpus) + 1) :=
            mul_le_mul_of_nonneg_left (by linarith) (pow_nonneg hd0 k)
        _ < (1 / 1000) /
              (l1dist corpus (iterStep corpus damping_factor (initRank corpus))
                (initRank corpus) + 1) *
              (l1dist corpus (iterStep corpus damping_factor (initRank corpus))
                (initRank corpus) + 1) :=
            mul_lt_mul_of_pos_right hk (by linarith)
        _ = 1 / 1000 := div_mul_cancel₀ _ (by linarith)
    linarith [h1.trans h2]
  have hsome := iterLoop_isSome_of_conv corpus damping_factor k (initRank corpus) hconv (k + 1)
    (Nat.lt_succ_self k)
  obtain ⟨r, hr⟩ := Option.isSome_iff_exists.mp hsome
  exact ⟨k + 1, corpus.nodes.map fun page => (page, r page), by rw [iterate_pagerank, hr]; rfl⟩

/-- Witness for claim C9: the single-node graph `{A: {}}` with damping
`0.85` satisfies all the hypotheses and the iteration indeed terminates. -/
theorem iterate_terminates_witness :
    Corpus.Valid singleC ∧ singleC.nodes ≠ [] ∧
      ((0 : ℚ) ≤ 17 / 20 ∧ (17 : ℚ) / 20 < 1) ∧
      ∃ fuel l, iterate_pagerank singleC (17 / 20) fuel = some l :=
  ⟨by decide, by decide, ⟨by norm_num, by norm_num⟩,
    iterate_terminates singleC (17 / 20) (by decide) (by decide) (by norm_num) (by norm_num)⟩

/-- Claim C10: when the convergence test first passes, `iterate_pagerank`
returns the mapping from before the final update; so one more application of
the update moves every page of the returned mapping by less than `0.001`,
and whenever the very first update already moves every page by less than
`0.001` the returned mapping is the unmodified uniform initial one. -/
theorem iterate_returns_pre_update (corpus : Corpus) (damping_factor : ℚ) (fuel : Nat)
    (l : List (String × ℚ))
    (h : iterate_pagerank corpus damping_factor fuel = some l) :
    (∃ r, l = corpus.nodes.map (fun page => (page, r page)) ∧
        ∀ page ∈ corpus.nodes,
          |iterStep corpus damping_factor r page - r page| < 1 / 1000) ∧
      ((∀ page ∈ corpus.nodes,
          |iterStep corpus damping_factor (initRank corpus) page - initRank corpus page| <
            1 / 1000) →
        l = corpus.nodes.map fun page => (page, initRank corpus page)) := by
  rw [iterate_pagerank] at h
  rcases Option.map_eq_some'.mp h with ⟨r, hr, rfl⟩
  constructor
  · exact ⟨r, rfl, (converged_iff _ _ _).mp (iterLoop_converged _ _ _ _ _ hr)⟩
  · intro hinit
    cases fuel with
    | zero => simp [iterLoop] at hr
    | succ fuel =>
      rw [iterLoop_succ_pos _ _ _ _ ((converged_iff _ _ _).mpr hinit)] at hr
      injection hr with hr
      rw [hr]

/-- Witness for claim C10: the terminating run on `{A: {}}` with damping
`0.85` and fuel `2` returns `{A: 0.15}`, a mapping one further update moves
by less than `0.001`. -/
theorem iterate_returns_pre_update_witness :
    (∃ r, [("A", (3 : ℚ) / 20)] = singleC.nodes.map (fun page => (page, r page)) ∧
        ∀ page ∈ singleC.nodes,
          |iterStep singleC (17 / 20) r page - r page| < 1 / 1000) ∧
      ((∀ page ∈ singleC.nodes,
          |iterStep singleC (17 / 20) (initRank singleC) page - initRank singleC page| <
            1 / 1000) →
        [("A", (3 : ℚ) / 20)] = singleC.nodes.map fun page => (page, initRank singleC page)) :=
  iterate_returns_pre_update singleC (17 / 20) 2 [("A", 3 / 20)] iterate_single_eval
